import Mathlib

/-!
Verification development for the end-to-end encrypted messaging core of the
GamePlan app: a shallow embedding of the AEAD cipher wrapper
(`src/services/encryption.ts`: XChaCha20-Poly1305 with @stablelib/base64
framing) and of the conversation/key/message store
(`src/services/messaging.ts`: Firestore documents plus device secure
storage), with theorems about encryption round-trips, tamper handling,
key distribution, unread-count accounting and frame properties.

Modelling conventions:
- byte strings are `List Nat` with every entry `< 256` (`Bytes`);
- the base64 strings produced and consumed by the cipher wrapper are
  `List Nat` of ASCII codes;
- the XChaCha20-Poly1305 primitive from @stablelib (external library code)
  is a parameter: a `seal`/`openAEAD` pair, with the library's contract
  (round-trip, rejection of altered inputs) taken as pointwise hypotheses;
- plaintexts are modelled as their UTF-8 byte sequences, so the
  TextEncoder/TextDecoder pair at the boundary is the identity.
-/

namespace GamePlan

/-- Every entry of the list is an 8-bit byte value. -/
def Bytes (l : List Nat) : Prop := ∀ b ∈ l, b < 256

instance (l : List Nat) : Decidable (Bytes l) :=
  List.decidableBAll _ l

/-- ASCII code of the standard base64 alphabet character for a 6-bit digit,
as used by @stablelib/base64's encoder. -/
def b64Char (d : Nat) : Nat :=
  if d < 26 then 65 + d
  else if d < 52 then 97 + (d - 26)
  else if d < 62 then 48 + (d - 52)
  else if d = 62 then 43
  else 47

/-- Decoding table of @stablelib/base64: maps an ASCII code back to its
6-bit digit, or to the sentinel 256 for characters outside the alphabet
(the decoder's INVALID_BYTE marker). -/
def b64Val (c : Nat) : Nat :=
  if 65 ≤ c ∧ c ≤ 90 then c - 65
  else if 97 ≤ c ∧ c ≤ 122 then c - 97 + 26
  else if 48 ≤ c ∧ c ≤ 57 then c - 48 + 52
  else if c = 43 then 62
  else if c = 47 then 63
  else 256

/-- Standard base64 encoding (`encode` from @stablelib/base64): bytes are
grouped in threes into four 6-bit digits; a trailing group of one or two
bytes is padded with `'='` (ASCII 61). -/
def encodeB64 : List Nat → List Nat
  | [] => []
  | [a] => [b64Char (a / 4), b64Char (a % 4 * 16), 61, 61]
  | [a, b] => [b64Char (a / 4), b64Char (a % 4 * 16 + b / 16), b64Char (b % 16 * 4), 61]
  | a :: b :: c :: rest =>
    b64Char (a / 4) :: b64Char (a % 4 * 16 + b / 16) :: b64Char (b % 16 * 4 + c / 64) ::
      b64Char (c % 64) :: encodeB64 rest

/-- The data characters of `encodeB64` (everything before the `'='`
padding). -/
def encData : List Nat → List Nat
  | [] => []
  | [a] => [b64Char (a / 4), b64Char (a % 4 * 16)]
  | [a, b] => [b64Char (a / 4), b64Char (a % 4 * 16 + b / 16), b64Char (b % 16 * 4)]
  | a :: b :: c :: rest =>
    b64Char (a / 4) :: b64Char (a % 4 * 16 + b / 16) :: b64Char (b % 16 * 4 + c / 64) ::
      b64Char (c % 64) :: encData rest

/-- Number of `'='` padding characters `encodeB64` appends. -/
def bsPad : List Nat → Nat
  | [] => 0
  | [_] => 2
  | [_, _] => 1
  | _ :: _ :: _ :: rest => bsPad rest

/-- Number of trailing `'='` characters, as counted by the backwards scan
in @stablelib/base64's `_getPaddingLength`. -/
def countTrailingPad (s : List Nat) : Nat :=
  (s.reverse.takeWhile (fun c => c = 61)).length

/-- Decoding of the data characters (padding already stripped), following
the group loop of @stablelib/base64's `decode`: full groups of four
characters yield three bytes; a trailing group of two or three characters
yields one or two bytes, silently discarding the unused low bits of its
last character (the decoder does not enforce canonical encodings); any
character outside the alphabet makes the whole decode fail. A trailing
group of a single character cannot arise from a well-padded input and is
treated as a failure. -/
def decodeB64Data : List Nat → Option (List Nat)
  | [] => some []
  | [c0, c1] =>
    if b64Val c0 = 256 ∨ b64Val c1 = 256 then none
    else some [b64Val c0 * 4 + b64Val c1 / 16]
  | [c0, c1, c2] =>
    if b64Val c0 = 256 ∨ b64Val c1 = 256 ∨ b64Val c2 = 256 then none
    else some [b64Val c0 * 4 + b64Val c1 / 16, b64Val c1 % 16 * 16 + b64Val c2 / 4]
  | c0 :: c1 :: c2 :: c3 :: rest =>
    if b64Val c0 = 256 ∨ b64Val c1 = 256 ∨ b64Val c2 = 256 ∨ b64Val c3 = 256 then none
    else
      match decodeB64Data rest with
      | none => none
      | some bs =>
        some ((b64Val c0 * 4 + b64Val c1 / 16) :: (b64Val c1 % 16 * 16 + b64Val c2 / 4) ::
          (b64Val c2 % 4 * 64 + b64Val c3) :: bs)
  | [_] => none

/-- `decode` from @stablelib/base64: the empty string decodes to no bytes;
otherwise the trailing `'='` run is measured (more than two `'='`, or a
string shorter than four characters, is malformed padding and throws) and
the remaining data characters are decoded. `none` models a thrown
exception. -/
def decodeB64 (s : List Nat) : Option (List Nat) :=
  if s = [] then some []
  else
    let p := countTrailingPad s
    if 2 < p ∨ s.length < 4 then none
    else decodeB64Data (s.take (s.length - p))

theorem b64Char_lt_256 (d : Nat) : b64Char d < 256 := by
  unfold b64Char
  repeat' split
  all_goals omega

theorem b64Char_ne_pad (d : Nat) : b64Char d ≠ 61 := by
  unfold b64Char
  repeat' split
  all_goals omega

theorem b64Val_b64Char (d : Nat) (h : d < 64) : b64Val (b64Char d) = d := by
  have h64 : ∀ e : Fin 64, b64Val (b64Char e.val) = e.val := by decide
  exact h64 ⟨d, h⟩

theorem encodeB64_eq_encData_append_pad (bs : List Nat) :
    encodeB64 bs = encData bs ++ List.replicate (bsPad bs) 61 := by
  induction bs using encodeB64.induct with
  | case1 => rfl
  | case2 a => rfl
  | case3 a b => rfl
  | case4 a b c rest ih =>
    simp only [encodeB64, encData, bsPad, ih, List.cons_append]

theorem encData_ne_pad (bs : List Nat) : ∀ c ∈ encData bs, c ≠ 61 := by
  induction bs using encData.induct with
  | case1 => intro c hc; simp [encData] at hc
  | case2 a =>
    intro c hc
    simp only [encData, List.mem_cons, List.not_mem_nil, or_false] at hc
    rcases hc with h | h <;> exact h ▸ b64Char_ne_pad _
  | case3 a b =>
    intro c hc
    simp only [encData, List.mem_cons, List.not_mem_nil, or_false] at hc
    rcases hc with h | h | h <;> exact h ▸ b64Char_ne_pad _
  | case4 a b c rest ih =>
    intro x hx
    simp only [encData, List.mem_cons] at hx
    rcases hx with h | h | h | h | h
    · exact h ▸ b64Char_ne_pad _
    · exact h ▸ b64Char_ne_pad _
    · exact h ▸ b64Char_ne_pad _
    · exact h ▸ b64Char_ne_pad _
    · exact ih x h

theorem takeWhile_append_of_all {p : Nat → Bool} (l1 l2 : List Nat)
    (h : ∀ a ∈ l1, p a) :
    (l1 ++ l2).takeWhile p = l1 ++ l2.takeWhile p := by
  induction l1 with
  | nil => simp
  | cons a t ih =>
    have ha : p a := h a (List.mem_cons_self a t)
    simp only [List.cons_append, List.takeWhile_cons, ha, if_true]
    rw [ih fun x hx => h x (List.mem_cons_of_mem a hx)]

theorem takeWhile_eq_nil_of_all_not {p : Nat → Bool} (l : List Nat)
    (h : ∀ a ∈ l, ¬ p a) : l.takeWhile p = [] := by
  cases l with
  | nil => rfl
  | cons a t =>
    have ha := h a (List.mem_cons_self a t)
    simp only [List.takeWhile_cons]
    simp [ha]

theorem countTrailingPad_encodeB64 (bs : List Nat) :
    countTrailingPad (encodeB64 bs) = bsPad bs := by
  rw [countTrailingPad, encodeB64_eq_encData_append_pad]
  rw [List.reverse_append, List.reverse_replicate]
  rw [takeWhile_append_of_all _ _ (by intro a ha; simp at ha; simp [ha])]
  rw [takeWhile_eq_nil_of_all_not _ (by
    intro a ha
    have := encData_ne_pad bs a (List.mem_reverse.mp ha)
    simp [this])]
  simp

theorem encodeB64_length (bs : List Nat) :
    (encodeB64 bs).length = (encData bs).length + bsPad bs := by
  rw [encodeB64_eq_encData_append_pad]
  simp

theorem decodeB64Data_encData (bs : List Nat) (h : Bytes bs) :
    decodeB64Data (encData bs) = some bs := by
  induction bs using encData.induct with
  | case1 => simp [encData, decodeB64Data]
  | case2 a =>
    have ha : a < 256 := h a (by simp)
    have h0 : a / 4 < 64 := by omega
    have h1 : a % 4 * 16 < 64 := by omega
    simp only [encData, decodeB64Data, b64Val_b64Char _ h0, b64Val_b64Char _ h1]
    have hno : ¬ (a / 4 = 256 ∨ a % 4 * 16 = 256) := by omega
    rw [if_neg hno]
    congr 2
    omega
  | case3 a b =>
    have ha : a < 256 := h a (by simp)
    have hb : b < 256 := h b (by simp)
    have h0 : a / 4 < 64 := by omega
    have h1 : a % 4 * 16 + b / 16 < 64 := by omega
    have h2 : b % 16 * 4 < 64 := by omega
    simp only [encData, decodeB64Data, b64Val_b64Char _ h0, b64Val_b64Char _ h1,
      b64Val_b64Char _ h2]
    have hno : ¬ (a / 4 = 256 ∨ a % 4 * 16 + b / 16 = 256 ∨ b % 16 * 4 = 256) := by omega
    rw [if_neg hno]
    congr 1
    congr 1
    · omega
    congr 1
    omega
  | case4 a b c rest ih =>
    have ha : a < 256 := h a (by simp)
    have hb : b < 256 := h b (by simp)
    have hc : c < 256 := h c (by simp)
    have hrest : Bytes rest := by
      intro x hx
      exact h x (by simp [hx])
    have h0 : a / 4 < 64 := by omega
    have h1 : a % 4 * 16 + b / 16 < 64 := by omega
    have h2 : b % 16 * 4 + c / 64 < 64 := by omega
    have h3 : c % 64 < 64 := by omega
    show decodeB64Data (b64Char (a / 4) :: b64Char (a % 4 * 16 + b / 16) ::
      b64Char (b % 16 * 4 + c / 64) :: b64Char (c % 64) :: encData rest) = some (a :: b :: c :: rest)
    simp only [decodeB64Data, b64Val_b64Char _ h0, b64Val_b64Char _ h1,
      b64Val_b64Char _ h2, b64Val_b64Char _ h3]
    have hno : ¬ (a / 4 = 256 ∨ a % 4 * 16 + b / 16 = 256 ∨ b % 16 * 4 + c / 64 = 256 ∨
        c % 64 = 256) := by omega
    rw [if_neg hno, ih hrest]
    have e1 : a / 4 * 4 + (a % 4 * 16 + b / 16) / 16 = a := by omega
    have e2 : (a % 4 * 16 + b / 16) % 16 * 16 + (b % 16 * 4 + c / 64) / 4 = b := by
      have hb16 : (a % 4 * 16 + b / 16) % 16 = b / 16 % 16 := by omega
      have hc4 : (b % 16 * 4 + c / 64) / 4 = b % 16 + c / 64 / 4 := by omega
      omega
    have e3 : (b % 16 * 4 + c / 64) % 4 * 64 + c % 64 = c := by
      have hc64 : (b % 16 * 4 + c / 64) % 4 = c / 64 % 4 := by omega
      omega
    rw [e1, e2, e3]

theorem bsPad_le_two (bs : List Nat) : bsPad bs ≤ 2 := by
  induction bs using bsPad.induct with
  | case1 => simp [bsPad]
  | case2 a => simp [bsPad]
  | case3 a b => simp [bsPad]
  | case4 a b c rest ih => simpa [bsPad] using ih

theorem encodeB64_length_ge (bs : List Nat) (h : bs ≠ []) :
    4 ≤ (encodeB64 bs).length := by
  induction bs using encodeB64.induct with
  | case1 => exact absurd rfl h
  | case2 a => simp [encodeB64]
  | case3 a b => simp [encodeB64]
  | case4 a b c rest ih => simp [encodeB64]

/-- Canonical round trip of the @stablelib base64 pair: decoding an encoded
byte string recovers it exactly. -/
theorem decodeB64_encodeB64 (bs : List Nat) (h : Bytes bs) :
    decodeB64 (encodeB64 bs) = some bs := by
  cases hbs : bs with
  | nil => rfl
  | cons x xs =>
    rw [← hbs]
    have hne : bs ≠ [] := by simp [hbs]
    have hlen := encodeB64_length_ge bs hne
    have henc : encodeB64 bs ≠ [] := by
      intro habs
      rw [habs] at hlen
      simp at hlen
    rw [decodeB64]
    simp only [henc, if_false]
    rw [countTrailingPad_encodeB64]
    have hp := bsPad_le_two bs
    have : ¬ (2 < bsPad bs ∨ (encodeB64 bs).length < 4) := by omega
    simp only [this, if_false]
    rw [encodeB64_length, encodeB64_eq_encData_append_pad]
    have : (encData bs).length + bsPad bs - bsPad bs = (encData bs).length := by omega
    rw [this]
    rw [List.take_left]
    exact decodeB64Data_encData bs h

/-- Encoding is injective on byte strings (it has `decodeB64` as a left
inverse). -/
theorem encodeB64_injective (b1 b2 : List Nat) (h1 : Bytes b1) (h2 : Bytes b2)
    (h : encodeB64 b1 = encodeB64 b2) : b1 = b2 := by
  have e1 := decodeB64_encodeB64 b1 h1
  have e2 := decodeB64_encodeB64 b2 h2
  rw [h, e2] at e1
  exact (Option.some.injEq _ _ ▸ e1).symm


/-- The interface of the external @stablelib/xchacha20poly1305 cipher
(field names suffixed since the library's method names clash with
keywords): `sealAEAD key nonce msg` returns ciphertext plus 16-byte
authentication tag; `openAEAD key nonce box` verifies the tag, returning
the plaintext on success and `none` (the library returns null) on
authentication failure. The library's guarantees (round trip, rejection of
altered inputs or wrong keys) enter the theorems as pointwise hypotheses
on this structure. -/
structure AEAD where
  sealAEAD : List Nat → List Nat → List Nat → List Nat
  openAEAD : List Nat → List Nat → List Nat → Option (List Nat)

/-- `encryptMessage` from the encryption module of
src/src/services/firebase.ts: decodes the base64 key, builds the cipher
(whose constructor requires a 32-byte key), draws a fresh 24-byte nonce
from the random source (passed here as the `nonce` argument), seals the
UTF-8 plaintext bytes, prepends the nonce to the sealed data and
base64-encodes the concatenation. Any failure inside the try block is
caught and rethrown as "Failed to encrypt message". -/
def encryptMessage (A : AEAD) (nonce message key : List Nat) : Except String (List Nat) :=
  match decodeB64 key with
  | none => .error "Failed to encrypt message"
  | some keyBytes =>
    if keyBytes.length = 32 then
      .ok (encodeB64 (nonce ++ A.sealAEAD keyBytes nonce message))
    else .error "Failed to encrypt message"

/-- `decryptMessage` from the encryption module of
src/src/services/firebase.ts: decodes the base64 key and payload, splits
the first 24 bytes off as the nonce and the rest as ciphertext+tag, builds
the cipher (32-byte key check) and opens; a null result ("Authentication
failed") or any thrown failure is rethrown as
"Failed to decrypt message". -/
def decryptMessage (A : AEAD) (encryptedData key : List Nat) : Except String (List Nat) :=
  match decodeB64 key with
  | none => .error "Failed to decrypt message"
  | some keyBytes =>
    match decodeB64 encryptedData with
    | none => .error "Failed to decrypt message"
    | some combined =>
      if keyBytes.length = 32 then
        match A.openAEAD keyBytes (combined.take 24) (combined.drop 24) with
        | some plain => .ok plain
        | none => .error "Failed to decrypt message"
      else .error "Failed to decrypt message"

/-- 16-byte checksum tag of the concrete stand-in cipher below. -/
def tagBytes (key nonce ct : List Nat) : List Nat :=
  (List.range 16).map (fun i => (key.sum + 2 * nonce.sum + 3 * ct.sum + i) % 256)

/-- A concrete executable stand-in for the external AEAD primitive, used to
instantiate witnesses: the sealed box is the plaintext followed by a
16-byte checksum tag over key, nonce and ciphertext; opening recomputes and
compares the tag. It has the same shape as the real primitive (box length =
plaintext length + 16, byte-valued output) but is not a secure cipher; the
theorems rely on it only through concrete evaluation. -/
def checksumAEAD : AEAD where
  sealAEAD key nonce msg := msg ++ tagBytes key nonce msg
  openAEAD key nonce box :=
    if box.length < 16 then none
    else
      if tagBytes key nonce (box.take (box.length - 16)) = box.drop (box.length - 16) then
        some (box.take (box.length - 16))
      else none

deriving instance DecidableEq for Except

theorem bytes_append {l1 l2 : List Nat} (h1 : Bytes l1) (h2 : Bytes l2) :
    Bytes (l1 ++ l2) := by
  intro b hb
  rcases List.mem_append.mp hb with h | h
  · exact h1 b h
  · exact h2 b h

/-- Unfolding of `encryptMessage` on a well-formed base64 key of a 32-byte
key. -/
theorem encryptMessage_eq (A : AEAD) (nonce msg kb : List Nat) (hkb : Bytes kb)
    (hlen : kb.length = 32) :
    encryptMessage A nonce msg (encodeB64 kb) =
      .ok (encodeB64 (nonce ++ A.sealAEAD kb nonce msg)) := by
  simp only [encryptMessage, decodeB64_encodeB64 kb hkb, hlen, reduceIte]

/-- Unfolding of `decryptMessage` on a well-formed base64 key of a 32-byte
key and a payload that decodes. -/
theorem decryptMessage_eq_open (A : AEAD) (payload kb comb : List Nat) (hkb : Bytes kb)
    (hlen : kb.length = 32) (hp : decodeB64 payload = some comb) :
    decryptMessage A payload (encodeB64 kb) =
      match A.openAEAD kb (comb.take 24) (comb.drop 24) with
      | some plain => .ok plain
      | none => .error "Failed to decrypt message" := by
  simp only [decryptMessage, decodeB64_encodeB64 kb hkb, hp, hlen, reduceIte]

/-- Two base64 strings that decode to the same bytes are indistinguishable
to `decryptMessage` (the primitive only ever sees the decoded bytes). -/
theorem decryptMessage_congr (A : AEAD) (s1 s2 key : List Nat)
    (h : decodeB64 s1 = decodeB64 s2) :
    decryptMessage A s1 key = decryptMessage A s2 key := by
  simp only [decryptMessage, h]

/-- C1: for every valid 256-bit key (base64-encoded) and every plaintext,
decrypting the result of `encryptMessage` with the same key recovers the
plaintext: the fresh 24-byte nonce is prepended to the sealed data and
base64-encoded, and `decryptMessage` splits the first 24 bytes back off as
the nonce, so — given the cipher's round-trip guarantee at these inputs —
the round trip returns the original message. -/
theorem encryptMessage_decryptMessage_roundtrip (A : AEAD) (kb nonce msg : List Nat)
    (hkb : Bytes kb) (hkblen : kb.length = 32)
    (hn : Bytes nonce) (hnlen : nonce.length = 24)
    (hsealb : Bytes (A.sealAEAD kb nonce msg))
    (hopen : A.openAEAD kb nonce (A.sealAEAD kb nonce msg) = some msg) :
    encryptMessage A nonce msg (encodeB64 kb) =
      .ok (encodeB64 (nonce ++ A.sealAEAD kb nonce msg)) ∧
    decryptMessage A (encodeB64 (nonce ++ A.sealAEAD kb nonce msg)) (encodeB64 kb) =
      .ok msg := by
  refine ⟨encryptMessage_eq A nonce msg kb hkb hkblen, ?_⟩
  rw [decryptMessage_eq_open A _ kb _ hkb hkblen
    (decodeB64_encodeB64 _ (bytes_append hn hsealb))]
  have htake : (nonce ++ A.sealAEAD kb nonce msg).take 24 = nonce := by
    rw [← hnlen, List.take_left]
  have hdrop : (nonce ++ A.sealAEAD kb nonce msg).drop 24 = A.sealAEAD kb nonce msg := by
    rw [← hnlen, List.drop_left]
  rw [htake, hdrop, hopen]

theorem encryptMessage_decryptMessage_roundtrip_witness :
    encryptMessage checksumAEAD (List.range 24) [104, 105] (encodeB64 (List.replicate 32 7)) =
      .ok (encodeB64 (List.range 24 ++
        checksumAEAD.sealAEAD (List.replicate 32 7) (List.range 24) [104, 105])) ∧
    decryptMessage checksumAEAD
      (encodeB64 (List.range 24 ++
        checksumAEAD.sealAEAD (List.replicate 32 7) (List.range 24) [104, 105]))
      (encodeB64 (List.replicate 32 7)) = .ok [104, 105] :=
  encryptMessage_decryptMessage_roundtrip checksumAEAD (List.replicate 32 7) (List.range 24)
    [104, 105] (by decide) (by decide) (by decide) (by decide) (by decide) (by decide)

/-- The authenticity side condition for a tampered payload: whatever the
tampered string decodes to is either the honest nonce-plus-box bytes, or a
pair the cipher refuses to open under this key. This is the AEAD
authentication contract restricted to the one decoded value, stated as a
boolean so that it is decidable for concrete inputs. -/
def rejectsAltered (A : AEAD) (kb honest : List Nat) : Option (List Nat) → Bool
  | none => true
  | some comb =>
    comb == honest || A.openAEAD kb (comb.take 24) (comb.drop 24) == none

/-- C2 (amended): tampering with a single byte of `encryptMessage`'s output
either makes `decryptMessage` raise an error, or — exactly when the altered
string still decodes to the honest bytes, which happens when the flip is
confined to the unused trailing bits of the final base64 character — makes
it return the ORIGINAL plaintext; and decryption under a different 32-byte
key that the cipher rejects raises an error. In neither case is a different
plaintext returned as if decryption succeeded. The cipher's authentication
contract enters as the pointwise hypotheses `hauth` and `hwrong`. -/
theorem decryptMessage_tamper_wrong_key (A : AEAD) (kb kb2 nonce msg key s s2 : List Nat)
    (i c : Nat)
    (hkb : Bytes kb) (hkblen : kb.length = 32) (hkey : key = encodeB64 kb)
    (hn : Bytes nonce) (hnlen : nonce.length = 24)
    (hsealb : Bytes (A.sealAEAD kb nonce msg))
    (hopen : A.openAEAD kb nonce (A.sealAEAD kb nonce msg) = some msg)
    (henc : encryptMessage A nonce msg key = .ok s)
    (hi : i < s.length) (hflip : s2 = s.set i c) (hneq : s2 ≠ s)
    (hauth : rejectsAltered A kb (nonce ++ A.sealAEAD kb nonce msg) (decodeB64 s2) = true)
    (hkb2 : Bytes kb2) (hkb2len : kb2.length = 32)
    (hwrong : A.openAEAD kb2 nonce (A.sealAEAD kb nonce msg) = none) :
    (decryptMessage A s2 key = .error "Failed to decrypt message" ∨
      (decodeB64 s2 = some (nonce ++ A.sealAEAD kb nonce msg) ∧
        decryptMessage A s2 key = .ok msg)) ∧
    decryptMessage A s (encodeB64 kb2) = .error "Failed to decrypt message" := by
  subst hkey
  rw [encryptMessage_eq A nonce msg kb hkb hkblen] at henc
  have hs : s = encodeB64 (nonce ++ A.sealAEAD kb nonce msg) := (Except.ok.inj henc).symm
  have htake : (nonce ++ A.sealAEAD kb nonce msg).take 24 = nonce := by
    rw [← hnlen, List.take_left]
  have hdrop : (nonce ++ A.sealAEAD kb nonce msg).drop 24 = A.sealAEAD kb nonce msg := by
    rw [← hnlen, List.drop_left]
  constructor
  · cases hd : decodeB64 s2 with
    | none =>
      left
      simp only [decryptMessage, decodeB64_encodeB64 kb hkb, hd]
    | some comb =>
      rw [hd] at hauth
      simp only [rejectsAltered, Bool.or_eq_true, beq_iff_eq] at hauth
      rcases hauth with hhon | hrej
      · right
        subst hhon
        refine ⟨rfl, ?_⟩
        rw [decryptMessage_eq_open A s2 kb _ hkb hkblen hd, htake, hdrop, hopen]
      · left
        rw [decryptMessage_eq_open A s2 kb comb hkb hkblen hd, hrej]
  · rw [hs, decryptMessage_eq_open A _ kb2 _ hkb2 hkb2len
      (decodeB64_encodeB64 _ (bytes_append hn hsealb)), htake, hdrop, hwrong]

theorem decryptMessage_tamper_wrong_key_witness :
    (decryptMessage checksumAEAD
        ((encodeB64 (List.range 24 ++
          checksumAEAD.sealAEAD (List.replicate 32 0) (List.range 24) [])).set 0 66)
        (encodeB64 (List.replicate 32 0)) = .error "Failed to decrypt message" ∨
      (decodeB64 ((encodeB64 (List.range 24 ++
          checksumAEAD.sealAEAD (List.replicate 32 0) (List.range 24) [])).set 0 66) =
        some (List.range 24 ++
          checksumAEAD.sealAEAD (List.replicate 32 0) (List.range 24) []) ∧
        decryptMessage checksumAEAD
          ((encodeB64 (List.range 24 ++
            checksumAEAD.sealAEAD (List.replicate 32 0) (List.range 24) [])).set 0 66)
          (encodeB64 (List.replicate 32 0)) = .ok [])) ∧
    decryptMessage checksumAEAD
      (encodeB64 (List.range 24 ++
        checksumAEAD.sealAEAD (List.replicate 32 0) (List.range 24) []))
      (encodeB64 (List.replicate 32 1)) = .error "Failed to decrypt message" :=
  decryptMessage_tamper_wrong_key checksumAEAD (List.replicate 32 0) (List.replicate 32 1)
    (List.range 24) [] (encodeB64 (List.replicate 32 0))
    (encodeB64 (List.range 24 ++
      checksumAEAD.sealAEAD (List.replicate 32 0) (List.range 24) []))
    ((encodeB64 (List.range 24 ++
      checksumAEAD.sealAEAD (List.replicate 32 0) (List.range 24) [])).set 0 66)
    0 66
    (by decide) (by decide) rfl (by decide) (by decide) (by decide) (by decide) (by decide)
    (by decide) (by decide) (by decide) (by decide) (by decide) (by decide) (by decide)

/-- C2 counterexample: the claim "flipping any single byte of the output of
encryptMessage makes decryptMessage raise an error" is false. The base64
decoder ignores the unused low bits of the final data character, so
changing byte 53 of this 56-character output from 116 to 120 yields a
genuinely different string that decodes to the very same bytes, and
`decryptMessage` succeeds, returning the original plaintext (here the
empty message) instead of raising. -/
theorem decryptMessage_flip_no_error_counterexample :
    encryptMessage checksumAEAD (List.range 24) [] (encodeB64 (List.replicate 32 0)) =
      .ok (encodeB64 (List.range 24 ++
        checksumAEAD.sealAEAD (List.replicate 32 0) (List.range 24) [])) ∧
    ((encodeB64 (List.range 24 ++
        checksumAEAD.sealAEAD (List.replicate 32 0) (List.range 24) [])).set 53 120 ≠
      encodeB64 (List.range 24 ++
        checksumAEAD.sealAEAD (List.replicate 32 0) (List.range 24) [])) ∧
    53 < (encodeB64 (List.range 24 ++
      checksumAEAD.sealAEAD (List.replicate 32 0) (List.range 24) [])).length ∧
    decodeB64 ((encodeB64 (List.range 24 ++
        checksumAEAD.sealAEAD (List.replicate 32 0) (List.range 24) [])).set 53 120) =
      decodeB64 (encodeB64 (List.range 24 ++
        checksumAEAD.sealAEAD (List.replicate 32 0) (List.range 24) [])) ∧
    decryptMessage checksumAEAD
      ((encodeB64 (List.range 24 ++
        checksumAEAD.sealAEAD (List.replicate 32 0) (List.range 24) [])).set 53 120)
      (encodeB64 (List.replicate 32 0)) = .ok [] := by
  decide

/-- C8: `encryptMessage` is injective in the nonce — two calls that draw
distinct 24-byte nonces produce distinct outputs, whatever the plaintext,
because the nonce is part of the base64-encoded concatenation and base64
encoding is injective on bytes. -/
theorem encryptMessage_nonce_injective (A : AEAD) (kb n1 n2 msg : List Nat)
    (hkb : Bytes kb) (hkblen : kb.length = 32)
    (hn1 : Bytes n1) (hn1len : n1.length = 24)
    (hn2 : Bytes n2) (hn2len : n2.length = 24)
    (hs1 : Bytes (A.sealAEAD kb n1 msg)) (hs2 : Bytes (A.sealAEAD kb n2 msg))
    (hne : n1 ≠ n2) :
    encryptMessage A n1 msg (encodeB64 kb) ≠ encryptMessage A n2 msg (encodeB64 kb) := by
  rw [encryptMessage_eq A n1 msg kb hkb hkblen, encryptMessage_eq A n2 msg kb hkb hkblen]
  intro h
  have henc : encodeB64 (n1 ++ A.sealAEAD kb n1 msg) =
      encodeB64 (n2 ++ A.sealAEAD kb n2 msg) := Except.ok.inj h
  have hcomb : n1 ++ A.sealAEAD kb n1 msg = n2 ++ A.sealAEAD kb n2 msg :=
    encodeB64_injective _ _ (bytes_append hn1 hs1) (bytes_append hn2 hs2) henc
  have h1 : (n1 ++ A.sealAEAD kb n1 msg).take 24 = n1 := by rw [← hn1len, List.take_left]
  have h2 : (n2 ++ A.sealAEAD kb n2 msg).take 24 = n2 := by rw [← hn2len, List.take_left]
  exact hne (h1 ▸ h2 ▸ congrArg (List.take 24) hcomb)

theorem encryptMessage_nonce_injective_witness :
    encryptMessage checksumAEAD (List.range 24) [104] (encodeB64 (List.replicate 32 0)) ≠
      encryptMessage checksumAEAD (List.replicate 24 0) [104]
        (encodeB64 (List.replicate 32 0)) :=
  encryptMessage_nonce_injective checksumAEAD (List.replicate 32 0) (List.range 24)
    (List.replicate 24 0) [104] (by decide) (by decide) (by decide) (by decide) (by decide)
    (by decide) (by decide) (by decide) (by decide)

/-- A message document in the `conversations/{id}/messages` subcollection.
Firestore documents are untyped, so every field is optional. -/
structure MsgDoc where
  senderId : Option String
  encryptedContent : Option String
  timestamp : Option Nat
  read : Option Bool
deriving DecidableEq

/-- A conversation document, as the fields the messaging service reads and
writes. Untyped Firestore document: every field is optional; map fields are
association lists in insertion order, like JS objects. `literalFields`
holds the numeric top-level fields whose literal names contain a dot: the
Firestore SDK parses dot-separated paths only in updateDoc, so a setDoc
data key such as `unreadCount.{uid}` is a single literal field-name
segment, creating a top-level field of that exact name — distinct from the
nested `unreadCount` map. -/
structure ConvDoc where
  participants : Option (List String)
  participantNames : Option (List (String × String))
  createdAt : Option Nat
  lastMessageAt : Option Nat
  conversationKeysByUser : Option (List (String × String))
  unreadCount : Option (List (String × Nat))
  literalFields : List (String × Nat)
deriving DecidableEq

/-- The conversation document with no fields, as `setDoc` with merge
creates before filling in the written fields when the target is absent. -/
def emptyConvDoc : ConvDoc :=
  { participants := none
    participantNames := none
    createdAt := none
    lastMessageAt := none
    conversationKeysByUser := none
    unreadCount := none
    literalFields := [] }

/-- Lookup in an association-list map (a Firestore map field or JS
object). -/
def alGet {κ α : Type} [DecidableEq κ] (m : List (κ × α)) (k : κ) : Option α :=
  match m.find? (fun p => p.1 = k) with
  | some p => some p.2
  | none => none

/-- Update of one entry of an association-list map, keeping every other
entry in place (JS property assignment / a single-field merge write). -/
def alSet {κ α : Type} [DecidableEq κ] (m : List (κ × α)) (k : κ) (v : α) :
    List (κ × α) :=
  match m with
  | [] => [(k, v)]
  | p :: rest => if p.1 = k then (k, v) :: rest else p :: alSet rest k v

/-- The world state the messaging service acts on: the `conversations`
collection, the per-conversation `messages` subcollections (kept as one
list of (conversationId, docId, doc) in insertion order), the device-local
key store (SecureStore on native, localStorage on web; its injective
`conv_key_` prefix is dropped), and the external supplies — the document-id
counter for `addDoc`, the server-timestamp clock for `Timestamp.now()`, and
the randomness counter consumed by `generateConversationKey`, whose output
is an oracle `G : Nat → String` in the definitions below. -/
structure Store where
  convs : List (Nat × ConvDoc)
  msgs : List (Nat × Nat × MsgDoc)
  localKeys : List (Nat × String)
  nextId : Nat
  clock : Nat
  rng : Nat
deriving DecidableEq

/-- `saveConversationKey` (messaging.ts): writes the key into the device
store and, when a user id is supplied, merge-writes that single entry into
the shared record's `conversationKeysByUser` map (`setDoc` with
`merge: true` deep-merges nested maps and creates the document if
absent). -/
def saveConversationKey (conversationId : Nat) (key : String) (userId : Option String)
    (st : Store) : Store :=
  let st1 : Store := { st with localKeys := alSet st.localKeys conversationId key }
  match userId with
  | none => st1
  | some u =>
    let d := (alGet st1.convs conversationId).getD emptyConvDoc
    let m1 := alSet (d.conversationKeysByUser.getD []) u key
    let d1 := { d with conversationKeysByUser := some m1 }
    { st1 with convs := alSet st1.convs conversationId d1 }

/-- `loadConversationKey` (messaging.ts): try the device store first and
return on a hit; on a miss, only if a user id was supplied, point-read the
conversation document and return `conversationKeysByUser[userId]` after
writing it back through `saveConversationKey`; if the record has no
`conversationKeysByUser` map at all but does have `participants` (a legacy
conversation), migrate — generate one fresh key, write it for every
participant in one merge, save it locally for this user, return it. Every
other path returns null and writes nothing. -/
def loadConversationKey (G : Nat → String) (conversationId : Nat) (userId : Option String)
    (st : Store) : Option String × Store :=
  match alGet st.localKeys conversationId with
  | some key => (some key, st)
  | none =>
    match userId with
    | none => (none, st)
    | some u =>
      match alGet st.convs conversationId with
      | none => (none, st)
      | some data =>
        match data.conversationKeysByUser with
        | some keysByUser =>
          match alGet keysByUser u with
          | some firestoreKey =>
            (some firestoreKey, saveConversationKey conversationId firestoreKey (some u) st)
          | none => (none, st)
        | none =>
          match data.participants with
          | none => (none, st)
          | some participants =>
            let newKey := G st.rng
            let keysByUser := participants.foldl (fun m p => alSet m p newKey) []
            let d1 := { data with conversationKeysByUser := some keysByUser }
            let st1 : Store :=
              { st with convs := alSet st.convs conversationId d1, rng := st.rng + 1 }
            (some newKey, saveConversationKey conversationId newKey (some u) st1)

/-- `createConversation` (messaging.ts): generates a conversation key,
`addDoc`s the record with both participants, their display names, the two
timestamps and `conversationKeysByUser` pre-populated with the same key for
both users, then saves the key locally (re-merging the creator's entry) via
`saveConversationKey`, and returns the new document id. -/
def createConversation (G : Nat → String) (currentUserId otherUserId : String)
    (currentUserName otherUserName : String) (st : Store) : Nat × Store :=
  let conversationKey := G st.rng
  let cid := st.nextId
  let names := alSet (alSet [] currentUserId currentUserName) otherUserId otherUserName
  let keysByUser := alSet (alSet [] currentUserId conversationKey) otherUserId conversationKey
  let d : ConvDoc :=
    { participants := some [currentUserId, otherUserId]
      participantNames := some names
      createdAt := some st.clock
      lastMessageAt := some (st.clock + 1)
      conversationKeysByUser := some keysByUser
      unreadCount := none
      literalFields := [] }
  let st1 : Store :=
    { st with
      convs := alSet st.convs cid d
      nextId := st.nextId + 1
      clock := st.clock + 2
      rng := st.rng + 1 }
  (cid, saveConversationKey cid conversationKey (some currentUserId) st1)

/-- `sendEncryptedMessage` (messaging.ts): resolve the key via
`loadConversationKey` (throw "Conversation key not found. Cannot send
encrypted message." if none), encrypt the plaintext (a thrown encryption
failure propagates), append the message document with `read: false`, then
point-read the conversation; if it exists, find the other participant,
read `unreadCount?.[otherUserId] || 0` from the nested map, and merge-write
`lastMessageAt` together with a data key `unreadCount.{otherUserId}` set to
that value plus one. setDoc treats the dotted key as a literal top-level
field name (only updateDoc parses dot paths), so the write lands in
`literalFields` and never touches the nested `unreadCount` map the read
consulted. Reading `participants` of a record lacking the field throws. -/
def sendEncryptedMessage (G : Nat → String) (enc : String → String → Except String String)
    (conversationId : Nat) (senderId message : String) (userId : Option String)
    (st : Store) : Except String Unit × Store :=
  match loadConversationKey G conversationId userId st with
  | (none, st1) => (.error "Conversation key not found. Cannot send encrypted message.", st1)
  | (some sharedKey, st1) =>
    match enc message sharedKey with
    | .error e => (.error e, st1)
    | .ok encrypted =>
      let md : MsgDoc :=
        { senderId := some senderId
          encryptedContent := some encrypted
          timestamp := some st1.clock
          read := some false }
      let st2 : Store :=
        { st1 with
          msgs := st1.msgs ++ [(conversationId, st1.nextId, md)]
          nextId := st1.nextId + 1
          clock := st1.clock + 1 }
      match alGet st2.convs conversationId with
      | none => (.ok (), st2)
      | some data =>
        match data.participants with
        | none => (.error "TypeError", st2)
        | some participants =>
          match participants.find? (fun id => id ≠ senderId) with
          | none => (.ok (), st2)
          | some otherUserId =>
            let currentUnread := (alGet (data.unreadCount.getD []) otherUserId).getD 0
            let m1 := alSet data.literalFields ("unreadCount." ++ otherUserId) (currentUnread + 1)
            let d1 := { data with lastMessageAt := some st2.clock, literalFields := m1 }
            let st3 : Store :=
              { st2 with convs := alSet st2.convs conversationId d1, clock := st2.clock + 1 }
            (.ok (), st3)

/-- The read-receipt query filter of `markMessagesAsRead`:
`senderId != userId` (Firestore `!=` matches only documents where the
field exists) and `read == false`. -/
def unreadByOther (userId : String) (m : MsgDoc) : Bool :=
  (match m.senderId with
   | some s => s ≠ userId
   | none => false) && m.read == some false

/-- `markMessagesAsRead` (messaging.ts): one-shot query for the messages of
this conversation not sent by this user and not yet read, merge-write
`read: true` on each of exactly those documents, then setDoc-merge the data
key `unreadCount.{userId}` to 0 on the conversation record — again a
literal top-level field name (dot paths are updateDoc-only), so the nested
`unreadCount` map is left untouched. -/
def markMessagesAsRead (conversationId : Nat) (userId : String) (st : Store) : Store :=
  let msgs1 := st.msgs.map (fun e =>
    if e.1 = conversationId ∧ unreadByOther userId e.2.2 = true then
      (e.1, e.2.1, { e.2.2 with read := some true })
    else e)
  let d := (alGet st.convs conversationId).getD emptyConvDoc
  let d1 := { d with literalFields := alSet d.literalFields ("unreadCount." ++ userId) 0 }
  { st with msgs := msgs1, convs := alSet st.convs conversationId d1 }

/-- The decrypted view of one message document, as the `onSnapshot`
callback of `subscribeToMessages` builds it. -/
structure Message where
  id : Nat
  senderId : Option String
  content : String
  timestamp : Option Nat
  read : Option Bool
deriving DecidableEq

/-- One document of the snapshot, as the callback's `map` body handles it:
`decryptMessage(data.encryptedContent, sharedKey)` inside try/catch,
yielding `null` on any failure — including an absent `encryptedContent`,
which makes the decoder throw. -/
def decryptDoc (dec : String → String → Except String String) (sharedKey : String)
    (e : Nat × MsgDoc) : Option Message :=
  match e.2.encryptedContent with
  | none => none
  | some c =>
    match dec c sharedKey with
    | .ok decrypted =>
      some
        { id := e.1
          senderId := e.2.senderId
          content := decrypted
          timestamp := e.2.timestamp
          read := e.2.read }
    | .error _ => none

/-- The body of the `onSnapshot` callback in `subscribeToMessages`, applied
to one delivered snapshot (the documents as the ascending-timestamp query
orders them): resolve the key once for the whole batch — bailing out
without invoking the callback when none resolves — then decrypt each
document, dropping (logging) the failures, and hand the resulting list to
the callback. Returns the list the callback receives (`none` when it is
not invoked) together with the state after the single key lookup. -/
def onMessagesSnapshot (G : Nat → String) (dec : String → String → Except String String)
    (conversationId : Nat) (docs : List (Nat × MsgDoc)) (userId : Option String)
    (st : Store) : Option (List Message) × Store :=
  match loadConversationKey G conversationId userId st with
  | (none, st1) => (none, st1)
  | (some sharedKey, st1) => (some (docs.filterMap (decryptDoc dec sharedKey)), st1)

theorem alGet_nil {κ α : Type} [DecidableEq κ] (k : κ) :
    alGet ([] : List (κ × α)) k = none := rfl

theorem alGet_cons {κ α : Type} [DecidableEq κ] (k1 : κ) (v1 : α) (rest : List (κ × α))
    (k : κ) : alGet ((k1, v1) :: rest) k = if k1 = k then some v1 else alGet rest k := by
  by_cases h : k1 = k <;> simp [alGet, List.find?, h]

theorem alGet_alSet {κ α : Type} [DecidableEq κ] (m : List (κ × α)) (k k2 : κ) (v : α) :
    alGet (alSet m k v) k2 = if k = k2 then some v else alGet m k2 := by
  induction m with
  | nil => by_cases h : k = k2 <;> simp [alSet, alGet_cons, h]
  | cons p rest ih =>
    obtain ⟨k1, v1⟩ := p
    by_cases h1 : k1 = k
    · subst h1
      by_cases h2 : k1 = k2 <;> simp [alSet, alGet_cons, h2]
    · by_cases h2 : k1 = k2
      · subst h2
        have hk : k ≠ k1 := fun h => h1 h.symm
        simp [alSet, h1, alGet_cons, hk]
      · simp [alSet, h1, alGet_cons, h2, ih]

theorem alGet_alSet_self {κ α : Type} [DecidableEq κ] (m : List (κ × α)) (k : κ) (v : α) :
    alGet (alSet m k v) k = some v := by
  simp [alGet_alSet]

theorem alGet_alSet_ne {κ α : Type} [DecidableEq κ] (m : List (κ × α)) (k k2 : κ) (v : α)
    (h : k ≠ k2) : alGet (alSet m k v) k2 = alGet m k2 := by
  simp [alGet_alSet, h]

theorem alGet_foldl_alSet_not_mem (ps : List String) (m : List (String × String))
    (key q : String) (hq : q ∉ ps) :
    alGet (ps.foldl (fun acc p => alSet acc p key) m) q = alGet m q := by
  induction ps generalizing m with
  | nil => rfl
  | cons p rest ih =>
    have hqp : p ≠ q := fun h => hq (h ▸ List.mem_cons_self p rest)
    have hqr : q ∉ rest := fun h => hq (List.mem_cons_of_mem p h)
    simp only [List.foldl_cons]
    rw [ih _ hqr, alGet_alSet_ne _ _ _ _ hqp]

theorem alGet_foldl_alSet_mem (ps : List String) (m : List (String × String))
    (key q : String) (hq : q ∈ ps) :
    alGet (ps.foldl (fun acc p => alSet acc p key) m) q = some key := by
  induction ps generalizing m with
  | nil => cases hq
  | cons p rest ih =>
    simp only [List.foldl_cons]
    by_cases hr : q ∈ rest
    · exact ih _ hr
    · have hpq : p = q := by
        rcases List.mem_cons.mp hq with h | h
        · exact h.symm
        · exact absurd h hr
      subst hpq
      rw [alGet_foldl_alSet_not_mem rest _ key p hr, alGet_alSet_self]

/-- A one-conversation sample state used by witnesses: a single empty
conversation document with id 0, no messages, no cached keys. -/
def sampleStore : Store := ⟨[(0, emptyConvDoc)], [], [], 1, 0, 0⟩

/-- Every null return of `loadConversationKey` leaves the state exactly as
it was: the cache-miss, missing-document, missing-entry and
no-participants paths write nothing. -/
theorem loadConversationKey_none_eq (G : Nat → String) (cid : Nat) (uid : Option String)
    (st : Store) (h : (loadConversationKey G cid uid st).1 = none) :
    loadConversationKey G cid uid st = (none, st) := by
  cases hl : alGet st.localKeys cid with
  | some k => simp [loadConversationKey, hl] at h
  | none =>
    cases uid with
    | none => simp [loadConversationKey, hl]
    | some u =>
      cases hc : alGet st.convs cid with
      | none => simp [loadConversationKey, hl, hc]
      | some data =>
        cases hk : data.conversationKeysByUser with
        | some kbu =>
          cases hku : alGet kbu u with
          | some fk => simp [loadConversationKey, hl, hc, hk, hku] at h
          | none => simp [loadConversationKey, hl, hc, hk, hku]
        | none =>
          cases hp : data.participants with
          | none => simp [loadConversationKey, hl, hc, hk, hp]
          | some ps => simp [loadConversationKey, hl, hc, hk, hp] at h

/-- C6: when no conversation key can be resolved for the given conversation
and user, `sendEncryptedMessage` throws "Conversation key not found" and
writes nothing at all: no message document is appended, nothing is stored
in its place, and the conversation record and every other part of the
state are exactly as before the call. -/
theorem sendEncryptedMessage_no_key_no_write (G : Nat → String)
    (enc : String → String → Except String String) (cid : Nat) (sender msg : String)
    (uid : Option String) (st : Store)
    (hnokey : (loadConversationKey G cid uid st).1 = none) :
    sendEncryptedMessage G enc cid sender msg uid st =
      (.error "Conversation key not found. Cannot send encrypted message.", st) := by
  have hload := loadConversationKey_none_eq G cid uid st hnokey
  simp [sendEncryptedMessage, hload]

theorem sendEncryptedMessage_no_key_no_write_witness :
    sendEncryptedMessage (fun _ => "k") (fun m _ => .ok m) 0 "alice" "hi" none
      ⟨[], [], [], 5, 7, 3⟩ =
      (.error "Conversation key not found. Cannot send encrypted message.",
        ⟨[], [], [], 5, 7, 3⟩) :=
  sendEncryptedMessage_no_key_no_write (fun _ => "k") (fun m _ => .ok m) 0 "alice" "hi" none
    ⟨[], [], [], 5, 7, 3⟩ (by decide)

/-- C10: called without a user id on a local-cache miss,
`loadConversationKey` returns null and leaves the state untouched (no
legacy migration), and it never consults the shared conversation record:
its result and effect are identical whatever the conversations collection
holds. -/
theorem loadConversationKey_no_userId (G : Nat → String) (cid : Nat) (st : Store)
    (hmiss : alGet st.localKeys cid = none) :
    loadConversationKey G cid none st = (none, st) ∧
    (∀ convs2 : List (Nat × ConvDoc),
      loadConversationKey G cid none { st with convs := convs2 } =
        (none, { st with convs := convs2 })) := by
  constructor
  · simp [loadConversationKey, hmiss]
  · intro convs2
    have hmiss2 : alGet ({ st with convs := convs2 } : Store).localKeys cid = none := hmiss
    simp [loadConversationKey, hmiss2]

theorem loadConversationKey_no_userId_witness :
    loadConversationKey (fun _ => "k") 0 none ⟨[(0, emptyConvDoc)], [], [], 1, 0, 0⟩ =
      (none, ⟨[(0, emptyConvDoc)], [], [], 1, 0, 0⟩) :=
  (loadConversationKey_no_userId (fun _ => "k") 0 ⟨[(0, emptyConvDoc)], [], [], 1, 0, 0⟩
    (by decide)).1

/-- C9: `saveConversationKey` with a user id merges exactly that user's
entry into the shared record's `conversationKeysByUser` map: every other
user's entry keeps its previous value, every other field of the record is
unchanged, every other conversation document is unchanged, and the message
collection is unchanged. -/
theorem saveConversationKey_frame (cid : Nat) (u key : String) (st : Store) (d : ConvDoc)
    (hd : alGet st.convs cid = some d) :
    ∃ d2, alGet (saveConversationKey cid key (some u) st).convs cid = some d2 ∧
      alGet (d2.conversationKeysByUser.getD []) u = some key ∧
      (∀ v, v ≠ u → alGet (d2.conversationKeysByUser.getD []) v =
        alGet (d.conversationKeysByUser.getD []) v) ∧
      d2.participants = d.participants ∧
      d2.participantNames = d.participantNames ∧
      d2.createdAt = d.createdAt ∧
      d2.lastMessageAt = d.lastMessageAt ∧
      d2.unreadCount = d.unreadCount ∧
      (∀ cid2, cid2 ≠ cid → alGet (saveConversationKey cid key (some u) st).convs cid2 =
        alGet st.convs cid2) ∧
      (saveConversationKey cid key (some u) st).msgs = st.msgs := by
  refine ⟨{ d with conversationKeysByUser := some (alSet (d.conversationKeysByUser.getD []) u key) }, ?_, ?_, ?_, rfl, rfl, rfl, rfl, rfl, ?_, ?_⟩
  · simp [saveConversationKey, hd, alGet_alSet_self]
  · simp [alGet_alSet_self]
  · intro v hv
    simp [alGet_alSet_ne _ u v _ (Ne.symm hv)]
  · intro cid2 huc
    simp [saveConversationKey, hd, alGet_alSet_ne _ cid cid2 _ (Ne.symm huc)]
  · simp [saveConversationKey]

theorem saveConversationKey_frame_witness :
    ∃ d2, alGet (saveConversationKey 0 "K" (some "alice") sampleStore).convs 0 = some d2 ∧
      alGet (d2.conversationKeysByUser.getD []) "alice" = some "K" ∧
      (∀ v, v ≠ "alice" → alGet (d2.conversationKeysByUser.getD []) v =
        alGet (emptyConvDoc.conversationKeysByUser.getD []) v) ∧
      d2.participants = emptyConvDoc.participants ∧
      d2.participantNames = emptyConvDoc.participantNames ∧
      d2.createdAt = emptyConvDoc.createdAt ∧
      d2.lastMessageAt = emptyConvDoc.lastMessageAt ∧
      d2.unreadCount = emptyConvDoc.unreadCount ∧
      (∀ cid2, cid2 ≠ 0 → alGet (saveConversationKey 0 "K" (some "alice") sampleStore).convs
          cid2 = alGet sampleStore.convs cid2) ∧
      (saveConversationKey 0 "K" (some "alice") sampleStore).msgs = sampleStore.msgs :=
  saveConversationKey_frame 0 "alice" "K" sampleStore emptyConvDoc (by decide)

/-- C3: after `createConversation(userA, userB, ...)` returns id C, loading
the conversation key for either participant returns the one key generated
at creation (the same value for both), and the stored record's
`conversationKeysByUser` maps every entry of `participants` to that
identical key. -/
theorem createConversation_key_shared (G : Nat → String) (a b na nb : String) (st : Store) :
    (loadConversationKey G (createConversation G a b na nb st).1 (some a)
      (createConversation G a b na nb st).2).1 = some (G st.rng) ∧
    (loadConversationKey G (createConversation G a b na nb st).1 (some b)
      (createConversation G a b na nb st).2).1 = some (G st.rng) ∧
    ∃ d, alGet (createConversation G a b na nb st).2.convs
        (createConversation G a b na nb st).1 = some d ∧
      d.participants = some [a, b] ∧
      ∀ u ∈ [a, b], alGet (d.conversationKeysByUser.getD []) u = some (G st.rng) := by
  simp only [createConversation, saveConversationKey, alGet_alSet_self, Option.getD_some]
  refine ⟨?_, ?_, ?_⟩
  · simp [loadConversationKey, alGet_alSet_self]
  · simp [loadConversationKey, alGet_alSet_self]
  · refine ⟨_, rfl, rfl, ?_⟩
    intro u hu
    rcases List.mem_cons.mp hu with h | h
    · subst h
      simp [alGet_alSet_self]
    · have hb : u = b := by simpa using h
      subst hb
      by_cases hab : a = u
      · subst hab
        simp [alGet_alSet_self]
      · simp [alGet_alSet, hab]

theorem createConversation_key_shared_witness :
    (loadConversationKey (fun n => Nat.repr n)
      (createConversation (fun n => Nat.repr n) "alice" "bob" "A" "B" sampleStore).1
      (some "alice")
      (createConversation (fun n => Nat.repr n) "alice" "bob" "A" "B" sampleStore).2).1 =
      some (Nat.repr sampleStore.rng) ∧
    (loadConversationKey (fun n => Nat.repr n)
      (createConversation (fun n => Nat.repr n) "alice" "bob" "A" "B" sampleStore).1
      (some "bob")
      (createConversation (fun n => Nat.repr n) "alice" "bob" "A" "B" sampleStore).2).1 =
      some (Nat.repr sampleStore.rng) ∧
    ∃ d, alGet (createConversation (fun n => Nat.repr n) "alice" "bob" "A" "B"
        sampleStore).2.convs
        (createConversation (fun n => Nat.repr n) "alice" "bob" "A" "B" sampleStore).1 =
        some d ∧
      d.participants = some ["alice", "bob"] ∧
      ∀ u ∈ ["alice", "bob"], alGet (d.conversationKeysByUser.getD []) u =
        some (Nat.repr sampleStore.rng) :=
  createConversation_key_shared (fun n => Nat.repr n) "alice" "bob" "A" "B" sampleStore

/-- C4: for a legacy conversation record that has `participants` but no
`conversationKeysByUser`, and an empty local cache, the first
`loadConversationKey` call migrates — it generates one fresh key and writes
it for every participant — and returns that key; an immediate second call
returns the very same key from the resulting state and changes nothing
further; afterwards every participant's entry holds that single key
value. -/
theorem loadConversationKey_legacy_migration (G : Nat → String) (cid : Nat) (u : String)
    (st : Store) (d : ConvDoc) (ps : List String)
    (hmiss : alGet st.localKeys cid = none)
    (hd : alGet st.convs cid = some d)
    (hleg : d.conversationKeysByUser = none)
    (hps : d.participants = some ps)
    (hu : u ∈ ps) :
    ∃ st1, loadConversationKey G cid (some u) st = (some (G st.rng), st1) ∧
      loadConversationKey G cid (some u) st1 = (some (G st.rng), st1) ∧
      ∃ d1, alGet st1.convs cid = some d1 ∧
        ∀ p ∈ ps, alGet (d1.conversationKeysByUser.getD []) p = some (G st.rng) := by
  refine ⟨saveConversationKey cid (G st.rng) (some u) { st with convs := alSet st.convs cid { d with conversationKeysByUser := some (ps.foldl (fun m p => alSet m p (G st.rng)) []) }, rng := st.rng + 1 }, ?_, ?_, ?_⟩
  · simp only [loadConversationKey, hmiss, hd, hleg, hps]
  · simp only [saveConversationKey, alGet_alSet_self, Option.getD_some]
    simp [loadConversationKey, alGet_alSet_self]
  · simp only [saveConversationKey, alGet_alSet_self, Option.getD_some]
    refine ⟨_, rfl, ?_⟩
    intro p hp
    simp only [Option.getD_some]
    by_cases hup : u = p
    · subst hup
      simp [alGet_alSet_self]
    · rw [alGet_alSet_ne _ _ _ _ hup]
      exact alGet_foldl_alSet_mem ps [] (G st.rng) p hp

/-- A legacy conversation document: two participants, no per-user key
map; used by the migration witness. -/
def legacyConvDoc : ConvDoc :=
  { participants := some ["alice", "bob"]
    participantNames := none
    createdAt := some 0
    lastMessageAt := some 0
    conversationKeysByUser := none
    unreadCount := none
    literalFields := [] }

/-- A state holding one legacy conversation, for the migration witness. -/
def legacyStore : Store := ⟨[(0, legacyConvDoc)], [], [], 1, 0, 0⟩

theorem loadConversationKey_legacy_migration_witness :
    ∃ st1, loadConversationKey (fun n => Nat.repr n) 0 (some "bob") legacyStore =
        (some (Nat.repr legacyStore.rng), st1) ∧
      loadConversationKey (fun n => Nat.repr n) 0 (some "bob") st1 =
        (some (Nat.repr legacyStore.rng), st1) ∧
      ∃ d1, alGet st1.convs 0 = some d1 ∧
        ∀ p ∈ ["alice", "bob"], alGet (d1.conversationKeysByUser.getD []) p =
          some (Nat.repr legacyStore.rng) :=
  loadConversationKey_legacy_migration (fun n => Nat.repr n) 0 "bob" legacyStore
    legacyConvDoc ["alice", "bob"] (by decide) (by decide) (by decide) (by decide) (by decide)

/-- `decryptDoc` keeps the document's timestamp in the view it builds. -/
theorem decryptDoc_timestamp (dec : String → String → Except String String) (K : String)
    (e : Nat × MsgDoc) (m : Message) (h : decryptDoc dec K e = some m) :
    m.timestamp = e.2.timestamp := by
  cases he : e.2.encryptedContent with
  | none => simp [decryptDoc, he] at h
  | some c =>
    cases hdc : dec c K with
    | error err => simp [decryptDoc, he, hdc] at h
    | ok dmsg =>
      simp only [decryptDoc, he, hdc] at h
      have hm := Option.some.inj h
      subst hm
      rfl

theorem pairwise_filterMap_of_pairwise {α β : Type} (f : α → Option β)
    (R : α → α → Prop) (S : β → β → Prop)
    (hf : ∀ a b x y, R a b → f a = some x → f b = some y → S x y)
    (l : List α) (hl : l.Pairwise R) : (l.filterMap f).Pairwise S := by
  induction l with
  | nil => simp
  | cons a t ih =>
    rcases List.pairwise_cons.mp hl with ⟨ha, ht⟩
    cases hfa : f a with
    | none => simpa [List.filterMap_cons, hfa] using ih ht
    | some x =>
      simp only [List.filterMap_cons, hfa]
      refine List.pairwise_cons.mpr ⟨?_, ih ht⟩
      intro y hy
      rcases List.mem_filterMap.mp hy with ⟨b, hb, hfb⟩
      exact hf a b x y (ha b hb) hfa hfb

/-- C7: on a delivered snapshot, once the key resolves (it is looked up a
single time for the whole batch), the callback receives exactly the
documents that decrypt successfully — each failure is dropped without
affecting the presence of any other entry, each success appears — and the
list stays in ascending timestamp order whenever the snapshot was
delivered in that order. -/
theorem onMessagesSnapshot_decrypts_exactly (G : Nat → String)
    (dec : String → String → Except String String) (cid : Nat)
    (docs : List (Nat × MsgDoc)) (uid : Option String) (st : Store) (K : String)
    (st1 : Store)
    (hkey : loadConversationKey G cid uid st = (some K, st1))
    (hsort : docs.Pairwise (fun x y => x.2.timestamp.getD 0 ≤ y.2.timestamp.getD 0)) :
    onMessagesSnapshot G dec cid docs uid st =
      (some (docs.filterMap (decryptDoc dec K)), st1) ∧
    (∀ l1 e l2, docs = l1 ++ e :: l2 → decryptDoc dec K e = none →
      docs.filterMap (decryptDoc dec K) = (l1 ++ l2).filterMap (decryptDoc dec K)) ∧
    (∀ e ∈ docs, ∀ m, decryptDoc dec K e = some m →
      m ∈ docs.filterMap (decryptDoc dec K)) ∧
    (docs.filterMap (decryptDoc dec K)).Pairwise
      (fun x y => x.timestamp.getD 0 ≤ y.timestamp.getD 0) := by
  refine ⟨?_, ?_, ?_, ?_⟩
  · simp [onMessagesSnapshot, hkey]
  · intro l1 e l2 hdocs hfail
    subst hdocs
    simp [List.filterMap_append, List.filterMap_cons, hfail]
  · intro e he m hm
    exact List.mem_filterMap.mpr ⟨e, he, hm⟩
  · refine pairwise_filterMap_of_pairwise _ _ _ ?_ docs hsort
    intro a b x y hR hfa hfb
    rw [decryptDoc_timestamp dec K a x hfa, decryptDoc_timestamp dec K b y hfb]
    exact hR

/-- A state whose only content is a cached key for conversation 0, for the
snapshot witness. -/
def sampleMsgStore : Store := ⟨[], [], [(0, "K")], 1, 0, 0⟩

/-- A two-document snapshot — one decryptable message and one with no
ciphertext at all — for the snapshot witness. -/
def sampleDocs : List (Nat × MsgDoc) :=
  [(1, ⟨some "alice", some "good", some 1, some false⟩),
   (2, ⟨some "bob", none, some 2, some false⟩)]

/-- A stand-in decryption function for the snapshot witness: only the
ciphertext "good" decrypts. -/
def sampleDec : String → String → Except String String :=
  fun c _ => if c = "good" then .ok c else .error "bad"

theorem onMessagesSnapshot_decrypts_exactly_witness :
    onMessagesSnapshot (fun _ => "g") sampleDec 0 sampleDocs none sampleMsgStore =
      (some (sampleDocs.filterMap (decryptDoc sampleDec "K")), sampleMsgStore) ∧
    (∀ l1 e l2, sampleDocs = l1 ++ e :: l2 → decryptDoc sampleDec "K" e = none →
      sampleDocs.filterMap (decryptDoc sampleDec "K") =
        (l1 ++ l2).filterMap (decryptDoc sampleDec "K")) ∧
    (∀ e ∈ sampleDocs, ∀ m, decryptDoc sampleDec "K" e = some m →
      m ∈ sampleDocs.filterMap (decryptDoc sampleDec "K")) ∧
    (sampleDocs.filterMap (decryptDoc sampleDec "K")).Pairwise
      (fun x y => x.timestamp.getD 0 ≤ y.timestamp.getD 0) :=
  onMessagesSnapshot_decrypts_exactly (fun _ => "g") sampleDec 0 sampleDocs none
    sampleMsgStore "K" sampleMsgStore (by decide) (by decide)

/-- Fold of `sendEncryptedMessage` over a list of plaintexts: the state
after N consecutive sends. -/
def sendAll (G : Nat → String) (enc : String → String → Except String String)
    (cid : Nat) (sender : String) (uid : Option String) (ms : List String)
    (st : Store) : Store :=
  ms.foldl (fun s m => (sendEncryptedMessage G enc cid sender m uid s).2) st

/-- A two-participant conversation document with its key map populated:
the concrete conversation on which the unread-accounting behavior of the
program is evaluated. -/
def chatConvDoc : ConvDoc := { participants := some ["alice", "bob"], participantNames := none, createdAt := some 0, lastMessageAt := some 0, conversationKeysByUser := some [("alice", "K"), ("bob", "K")], unreadCount := none, literalFields := [] }

/-- A state with that one conversation and its key cached locally. -/
def chatStore : Store := ⟨[(0, chatConvDoc)], [], [(0, "K")], 1, 0, 0⟩

/-- C5 (the code evaluated at the failing input): sending two messages from
alice to bob in the two-participant conversation and then calling
markMessagesAsRead for bob never touches bob's entry in the `unreadCount`
map — it stays absent throughout. The increment lands on a literal
top-level field named "unreadCount.bob", and even that field holds 1 after
both sends, not 2, because each send recomputes the increment from the
never-written nested map; markMessagesAsRead then sets the literal field to
0. The read flags of exactly the two new messages are flipped to true, so
the read-receipt half of the claim does hold. -/
theorem unread_accounting_code_bug_eval :
    alGet (((alGet (sendAll (fun _ => "g") (fun m _ => .ok m) 0 "alice" none ["hi", "yo"]
        chatStore).convs 0).getD emptyConvDoc).unreadCount.getD []) "bob" = none ∧
    alGet ((alGet (sendAll (fun _ => "g") (fun m _ => .ok m) 0 "alice" none ["hi", "yo"]
        chatStore).convs 0).getD emptyConvDoc).literalFields "unreadCount.bob" = some 1 ∧
    alGet (((alGet (markMessagesAsRead 0 "bob" (sendAll (fun _ => "g") (fun m _ => .ok m) 0
        "alice" none ["hi", "yo"] chatStore)).convs 0).getD
        emptyConvDoc).unreadCount.getD []) "bob" = none ∧
    alGet ((alGet (markMessagesAsRead 0 "bob" (sendAll (fun _ => "g") (fun m _ => .ok m) 0
        "alice" none ["hi", "yo"] chatStore)).convs 0).getD
        emptyConvDoc).literalFields "unreadCount.bob" = some 0 ∧
    (markMessagesAsRead 0 "bob" (sendAll (fun _ => "g") (fun m _ => .ok m) 0 "alice" none
      ["hi", "yo"] chatStore)).msgs.length = 2 ∧
    (∀ e ∈ (markMessagesAsRead 0 "bob" (sendAll (fun _ => "g") (fun m _ => .ok m) 0 "alice"
      none ["hi", "yo"] chatStore)).msgs, e.2.2.read = some true) := by
  decide

end GamePlan
